import Mathlib

set_option maxHeartbeats 1000000

/-!
Shallow embedding of gtsam's `VectorValues` (src/linear/VectorValues.h):
a flat scalar buffer `values_` together with a boundary-offset table
`varStarts_` partitioning it into per-variable blocks.

Modelling conventions:
* scalars (C++ `double`) are exact rationals (`Rat`);
* `size_t` / `Index` values are `Nat` (iterator index arithmetic, which can
  wrap, is taken modulo 2^64);
* a failed debug assertion (`assert`, or a ublas `BOOST_UBLAS_CHECK`) aborts
  the program; a fallible operation therefore returns `Except`, and where the
  partially mutated state at the abort point matters it is carried in the
  error value;
* ublas `vector::resize(n)` with the default `preserve = true` keeps the
  existing entries and value-initializes (zeroes) any newly allocated tail;
  `resize(n, false)` leaves the contents unspecified, which is modelled by an
  explicit `junk : Nat → Rat` parameter supplying the arbitrary contents.
-/

instance {ε α : Type} [DecidableEq ε] [DecidableEq α] : DecidableEq (Except ε α)
  | .ok a, .ok b =>
    if h : a = b then .isTrue (by rw [h])
    else .isFalse (by intro c; cases c; exact h rfl)
  | .ok _, .error _ => .isFalse (by intro h; cases h)
  | .error _, .ok _ => .isFalse (by intro h; cases h)
  | .error a, .error b =>
    if h : a = b then .isTrue (by rw [h])
    else .isFalse (by intro c; cases c; exact h rfl)

/-- The flat scalar vector type (gtsam `Vector`, a ublas vector of doubles). -/
abbrev GVector := List Rat

/-- gtsam::VectorValues: `values_` is the flat storage (its length is the
allocated capacity `dimCapacity()`), `varStarts_` the boundary offsets, one
entry per variable plus a final entry equal to the used length `dim()`. -/
structure VectorValues where
  values_ : GVector
  varStarts_ : List Nat
deriving DecidableEq, Repr

/-- The boundary table built by the dimension-container constructor's loop:
`varStarts_[0] = 0` and `varStarts_[++var] = (varStart += dim)` with
`varStart` the running-sum accumulator. -/
def buildStarts (varStart : Nat) : List Nat → List Nat
  | [] => [varStart]
  | d :: ds => varStart :: buildStarts (varStart + d) ds

namespace VectorValues

/-- Default constructor: `varStarts_(1,0)` and empty storage. -/
def empty : VectorValues := ⟨[], [0]⟩

/-- Copy constructor. -/
def copy (V : VectorValues) : VectorValues := ⟨V.values_, V.varStarts_⟩

/-- Constructor from a container of per-variable dimensions.  Storage is
resized to the final running sum with `preserve = false`, so its contents are
unspecified; they are supplied here by the arbitrary function `junk`. -/
def ofDims (dimensions : List Nat) (junk : Nat → Rat) : VectorValues :=
  let vs := buildStarts 0 dimensions
  ⟨(List.range (vs.getLastD 0)).map junk, vs⟩

/-- The loop of the `(nVars, varDim)` constructor:
`varStarts_[j] = (varStart += varDim)` for `j = 1 .. nVars`. -/
def uniformStarts (varStart varDim : Nat) : Nat → List Nat
  | 0 => []
  | n + 1 => (varStart + varDim) :: uniformStarts (varStart + varDim) varDim n

/-- Constructor holding `nVars` vectors of `varDim` dimensions each;
storage contents are again unspecified (`junk`). -/
def ofUniform (nVars varDim : Nat) (junk : Nat → Rat) : VectorValues :=
  let vs := 0 :: uniformStarts 0 varDim nVars
  ⟨(List.range (vs.getLastD 0)).map junk, vs⟩

/-- Constructor from per-variable dimensions and a combined flat vector;
asserts that the final boundary equals the supplied vector's length. -/
def ofDimsValues (dimensions : List Nat) (values : GVector) :
    Except String VectorValues :=
  if (buildStarts 0 dimensions).getLastD 0 = values.length then
    .ok ⟨values, buildStarts 0 dimensions⟩
  else .error "assert: varStarts_.back() == values.size()"

/-- `size()`: `varStarts_.size() - 1`. -/
def size (v : VectorValues) : Nat := v.varStarts_.length - 1

/-- `dim()`: `varStarts_.back()`, the total used dimensionality. -/
def dim (v : VectorValues) : Nat := v.varStarts_.getLastD 0

/-- `dimCapacity()`: `values_.size()`, the allocated capacity. -/
def dimCapacity (v : VectorValues) : Nat := v.values_.length

/-- `SameStructure`: copy the boundary table and allocate (uninitialized,
hence `junk`-filled) storage of the matching used length. -/
def SameStructure (otherValues : VectorValues) (junk : Nat → Rat) : VectorValues :=
  ⟨(List.range (otherValues.varStarts_.getLastD 0)).map junk, otherValues.varStarts_⟩

/-- `operator[]` as a read: the block view for `var` spans
`[varStarts_[var], varStarts_[var+1])` of storage.  The debug assertion
`checkVariable` (`var < size()`) holds at every use made of this below. -/
def getBlock (v : VectorValues) (var : Nat) : GVector :=
  (v.values_.drop (v.varStarts_.getD var 0)).take
    (v.varStarts_.getD (var + 1) 0 - v.varStarts_.getD var 0)

/-- Assignment through `operator[]`: `operator[](var) = vec`.  Mirrors the
debug checks on this path: `checkVariable` (`var < size()`), the ublas range
check raised when the `vector_range` view is built (the range must fit inside
`values_`), and the ublas size check of vector assignment (range length must
equal `vec.length`).  A failed check is an assertion failure (error). -/
def setBlock (v : VectorValues) (var : Nat) (vec : GVector) :
    Except String VectorValues :=
  -- the range is [s, e) with s = varStarts_[var], e = varStarts_[var+1]
  if var < v.varStarts_.length - 1 then
    if v.varStarts_.getD (var + 1) 0 ≤ v.values_.length then
      if v.varStarts_.getD (var + 1) 0 - v.varStarts_.getD var 0 = vec.length then
        .ok ⟨v.values_.take (v.varStarts_.getD var 0) ++ vec ++
            v.values_.drop (v.varStarts_.getD var 0 + vec.length),
          v.varStarts_⟩
      else .error "ublas: external_logic, size mismatch"
    else .error "ublas: bad_index"
  else .error "assert: variable < varStarts_.size()-1"

/-- `reserve(nVars, totalDims)`:
`values_.resize(max(totalDims, values_.size()))` — a ublas preserving resize,
keeping existing entries and zero-filling the newly allocated tail — plus
`varStarts_.reserve(nVars+1)`, a capacity hint with no logical effect
(`nVars` is therefore unused in the model). -/
def reserve (v : VectorValues) (nVars totalDims : Nat) : VectorValues :=
  ⟨v.values_ ++
      List.replicate (max totalDims v.values_.length - v.values_.length) 0,
    v.varStarts_⟩

/-- `push_back_preallocated(vector)`: appends the next boundary, then writes
the block through `operator[]`, which asserts that storage has enough
allocated space.  The error case carries the state at the point of the
assertion failure — the new boundary has already been pushed there. -/
def push_back_preallocated (v : VectorValues) (vector : GVector) :
    Except (String × VectorValues) (VectorValues × Nat) :=
  -- `var` is `varStarts_.size()-1`; the boundary `varStarts_.back() +
  -- vector.size()` is pushed first, then `operator[](var) = vector` runs.
  match VectorValues.setBlock
      ⟨v.values_, v.varStarts_ ++ [v.varStarts_.getLastD 0 + vector.length]⟩
      (v.varStarts_.length - 1) vector with
  | .ok v2 => .ok (v2, v.varStarts_.length - 1)
  | .error msg =>
    .error (msg,
      ⟨v.values_, v.varStarts_ ++ [v.varStarts_.getLastD 0 + vector.length]⟩)

/-- `makeZero()`: assigns a zero vector of the full allocated size
(`values_.size()`), i.e. slack capacity is zeroed as well. -/
def makeZero (v : VectorValues) : VectorValues :=
  ⟨List.replicate v.values_.length 0, v.varStarts_⟩

/-- Modelled from the spec: gtsam's `equal_with_abs_tol` on flat vectors
(declared in base/Vector.h, which is not part of this sample) — an
absolute-tolerance comparison: the lengths must agree and every pair of
corresponding entries must differ by at most `tol`. -/
def equal_with_abs_tol (vec1 vec2 : GVector) (tol : Rat) : Bool :=
  decide (vec1.length = vec2.length) &&
    (vec1.zip vec2).all fun p => decide (|p.1 - p.2| ≤ tol)

/-- `equals(expected, tol)` (Testable): false on differing variable counts,
otherwise an absolute-tolerance comparison of every block in index order. -/
def equals (v expected : VectorValues) (tol : Rat) : Bool :=
  if v.size ≠ expected.size then false
  else (List.range v.size).all fun var =>
    equal_with_abs_tol (expected.getBlock var) (v.getBlock var) tol

/-- The inner product of two flat vectors (over their common length). -/
def innerProd (a b : GVector) : Rat := (List.zipWith (· * ·) a b).sum

/-- Modelled from the spec: gtsam's `dot` on flat vectors (base/Vector.h, not
part of this sample) — the inner product of the two full vectors, asserting
equal lengths. -/
def vecDot (a b : GVector) : Except String Rat :=
  if a.length = b.length then .ok (innerProd a b)
  else .error "assert: a.size() == b.size()"

/-- The friend `dot(V1, V2)` (and the member `V1.dot(V2)`): gtsam::dot
applied to the two full storage buffers `values_` — note, not restricted to
the used range `[0, dim())`. -/
def dotVV (V1 V2 : VectorValues) : Except String Rat :=
  vecDot V1.values_ V2.values_

/-- Modelled from the spec: gtsam's `scal` on a flat vector (base/Vector.h,
not part of this sample) — multiply every entry in place by `alpha`. -/
def vecScal (alpha : Rat) (x : GVector) : GVector := x.map fun t => alpha * t

/-- The friend `scal(alpha, x)`: scales the full storage buffer. -/
def scalVV (alpha : Rat) (x : VectorValues) : VectorValues :=
  ⟨vecScal alpha x.values_, x.varStarts_⟩

/-- Modelled from the spec: gtsam's `axpy` on flat vectors (base/Vector.h,
not part of this sample) — `y += alpha * x`, asserting equal lengths. -/
def vecAxpy (alpha : Rat) (x y : GVector) : Except String GVector :=
  if x.length = y.length then
    .ok (List.zipWith (fun a b => b + alpha * a) x y)
  else .error "assert: x.size() == y.size()"

/-- The friend `axpy(alpha, x, y)` applied to the full storage buffers. -/
def axpyVV (alpha : Rat) (x y : VectorValues) : Except String VectorValues :=
  (vecAxpy alpha x.values_ y.values_).map fun ys => ⟨ys, y.varStarts_⟩

/-- `operator+`: asserts structural equality of the two boundary tables, then
adds the used ranges `project(values_, range(0, varStarts_.back()))` of both
(the ublas range construction checks that the range fits inside storage). -/
def addVV (v c : VectorValues) : Except String VectorValues :=
  if v.varStarts_ = c.varStarts_ then
    if v.dim ≤ v.values_.length ∧ c.dim ≤ c.values_.length then
      .ok ⟨List.zipWith (· + ·) (v.values_.take v.dim) (c.values_.take c.dim),
        v.varStarts_⟩
    else .error "ublas: bad_index"
  else .error "assert: varStarts_ == c.varStarts_"

/-- The data-model invariant: boundaries start at zero, are non-decreasing,
and the used length never exceeds the allocated capacity. -/
def goodBounds (v : VectorValues) : Prop :=
  v.varStarts_.head? = some 0 ∧ List.Pairwise (· ≤ ·) v.varStarts_ ∧
    v.dim ≤ v.dimCapacity

instance (v : VectorValues) : Decidable v.goodBounds := by
  unfold goodBounds; infer_instance

end VectorValues

/-- The modulus of `size_t` / `Index` arithmetic. -/
def USIZE : Nat := 2 ^ 64

/-- `VectorValues::_impl_iterator`: a container reference (`config_`) plus
the current variable index. -/
structure VVIterator where
  config_ : VectorValues
  curVariable_ : Nat
deriving Repr

namespace VVIterator

/-- Wrap a signed index computation back into `size_t`. -/
def wrap (z : Int) : Nat := (z % (USIZE : Int)).toNat

/-- `begin()`. -/
def iterBegin (v : VectorValues) : VVIterator := ⟨v, 0⟩

/-- `end()`: positioned at `varStarts_.size() - 1`. -/
def iterEnd (v : VectorValues) : VVIterator := ⟨v, v.varStarts_.length - 1⟩

/-- Prefix `operator++`: `++curVariable_`. -/
def inc (it : VVIterator) : VVIterator :=
  { it with curVariable_ := wrap ((it.curVariable_ : Int) + 1) }

/-- Prefix `operator--`: `--curVariable_` (`size_t`, wraps at zero). -/
def dec (it : VVIterator) : VVIterator :=
  { it with curVariable_ := wrap ((it.curVariable_ : Int) - 1) }

/-- Postfix `operator++(int)`: unconditionally throws, mutating nothing. -/
def postInc (_it : VVIterator) : Except String VVIterator :=
  .error "Use prefix ++ operator"

/-- Postfix `operator--(int)`: unconditionally throws, mutating nothing. -/
def postDec (_it : VVIterator) : Except String VVIterator :=
  .error "Use prefix -- operator"

/-- `operator+=(step)`: `curVariable_ += step`. -/
def addAssign (it : VVIterator) (step : Int) : VVIterator :=
  { it with curVariable_ := wrap ((it.curVariable_ : Int) + step) }

/-- `operator-=(step)`: the body of the source is `curVariable_ += step`
(sic — it adds the step). -/
def subAssign (it : VVIterator) (step : Int) : VVIterator :=
  { it with curVariable_ := wrap ((it.curVariable_ : Int) + step) }

/-- `operator*`: `config_[curVariable_]`. -/
def deref (it : VVIterator) : GVector := it.config_.getBlock it.curVariable_

end VVIterator

/-! ## Helper lemmas about lists and the boundary-table builders -/

theorem buildStarts_ne_nil (a : Nat) (dims : List Nat) :
    buildStarts a dims ≠ [] := by
  cases dims <;> simp [buildStarts]

theorem length_buildStarts (a : Nat) (dims : List Nat) :
    (buildStarts a dims).length = dims.length + 1 := by
  induction dims generalizing a with
  | nil => rfl
  | cons d ds ih => simp [buildStarts, ih]

theorem head?_buildStarts (a : Nat) (dims : List Nat) :
    (buildStarts a dims).head? = some a := by
  cases dims <;> rfl

theorem getLastD_buildStarts (a : Nat) (dims : List Nat) (d₀ : Nat) :
    (buildStarts a dims).getLastD d₀ = a + dims.sum := by
  induction dims generalizing a d₀ with
  | nil => simp [buildStarts]
  | cons d ds ih =>
    simp only [buildStarts, List.getLastD_cons, ih, List.sum_cons]
    omega

theorem getD_buildStarts (dims : List Nat) (a i : Nat) (h : i ≤ dims.length) :
    (buildStarts a dims).getD i 0 = a + (dims.take i).sum := by
  induction dims generalizing a i with
  | nil =>
    have : i = 0 := by simpa using h
    subst this
    simp [buildStarts]
  | cons d ds ih =>
    cases i with
    | zero => simp [buildStarts]
    | succ j =>
      simp only [buildStarts, List.getD_cons_succ, List.take_succ_cons,
        List.sum_cons]
      rw [ih (a + d) j (by simpa using h)]
      omega

theorem le_mem_buildStarts (a : Nat) (dims : List Nat) :
    ∀ x ∈ buildStarts a dims, a ≤ x := by
  induction dims generalizing a with
  | nil => simp [buildStarts]
  | cons d ds ih =>
    intro x hx
    simp only [buildStarts, List.mem_cons] at hx
    rcases hx with rfl | hx
    · exact le_refl x
    · exact le_trans (Nat.le_add_right a d) (ih (a + d) x hx)

theorem pairwise_buildStarts (a : Nat) (dims : List Nat) :
    List.Pairwise (· ≤ ·) (buildStarts a dims) := by
  induction dims generalizing a with
  | nil => simp [buildStarts]
  | cons d ds ih =>
    refine List.Pairwise.cons ?_ (ih (a + d))
    intro x hx
    exact le_trans (Nat.le_add_right a d) (le_mem_buildStarts (a + d) ds x hx)

theorem buildStarts_replicate (d : Nat) :
    ∀ (n a : Nat),
      buildStarts a (List.replicate n d) = a :: VectorValues.uniformStarts a d n := by
  intro n
  induction n with
  | zero => intro a; rfl
  | succ m ih =>
    intro a
    simp only [List.replicate_succ, buildStarts, VectorValues.uniformStarts, ih]

theorem getLastD_irrel (l : List Nat) (h : l ≠ []) (d₁ d₂ : Nat) :
    l.getLastD d₁ = l.getLastD d₂ := by
  cases l with
  | nil => exact absurd rfl h
  | cons a t => rw [List.getLastD_cons, List.getLastD_cons]

theorem getD_length_sub_one (l : List Nat) (h : l ≠ []) :
    l.getD (l.length - 1) 0 = l.getLastD 0 := by
  induction l with
  | nil => exact absurd rfl h
  | cons a t ih =>
    cases t with
    | nil => rfl
    | cons b u =>
      have hne : (b :: u) ≠ [] := by simp
      have : (a :: b :: u).length - 1 = ((b :: u).length - 1) + 1 := by
        simp
      rw [this, List.getD_cons_succ, ih hne,
        show (a :: b :: u).getLastD 0 = (b :: u).getLastD a from
          List.getLastD_cons 0 a (b :: u)]
      exact getLastD_irrel (b :: u) hne 0 a

theorem getLastD_mem (l : List Nat) (h : l ≠ []) : l.getLastD 0 ∈ l := by
  cases l with
  | nil => exact absurd rfl h
  | cons a t =>
    rw [List.getLastD_cons]
    exact List.getLastD_mem_cons t a

theorem getD_mem_of_lt (l : List Nat) (i : Nat) (h : i < l.length) :
    l.getD i 0 ∈ l := by
  rw [List.getD_eq_getElem l 0 h]
  exact List.getElem_mem h

theorem pairwise_getD_mono (l : List Nat) (hp : List.Pairwise (· ≤ ·) l)
    {i j : Nat} (hij : i ≤ j) (hj : j < l.length) :
    l.getD i 0 ≤ l.getD j 0 := by
  induction l generalizing i j with
  | nil => simp at hj
  | cons a t ih =>
    rcases List.pairwise_cons.mp hp with ⟨ha, ht⟩
    cases i with
    | zero =>
      cases j with
      | zero => exact le_refl _
      | succ k =>
        simp only [List.getD_cons_zero, List.getD_cons_succ]
        exact ha _ (getD_mem_of_lt t k (by simpa using hj))
    | succ m =>
      cases j with
      | zero => omega
      | succ k =>
        simp only [List.getD_cons_succ]
        exact ih ht (by omega) (by simpa using hj)

theorem getD_le_getLastD (l : List Nat) (hp : List.Pairwise (· ≤ ·) l)
    (i : Nat) (hi : i < l.length) : l.getD i 0 ≤ l.getLastD 0 := by
  have hne : l ≠ [] := by
    intro h; subst h; simp at hi
  have := pairwise_getD_mono l hp (Nat.le_sub_one_of_lt hi)
    (by omega : l.length - 1 < l.length)
  rwa [getD_length_sub_one l hne] at this

theorem le_getLastD_of_mem (l : List Nat) (hp : List.Pairwise (· ≤ ·) l) :
    ∀ x ∈ l, x ≤ l.getLastD 0 := by
  intro x hx
  rcases List.getElem_of_mem hx with ⟨i, hi, rfl⟩
  rw [← List.getD_eq_getElem l 0 hi]
  exact getD_le_getLastD l hp i hi

theorem slice_congr_of_take_eq (l₁ l₂ : GVector) (s e d : Nat) (he : e ≤ d)
    (h : l₁.take d = l₂.take d) :
    (l₁.drop s).take (e - s) = (l₂.drop s).take (e - s) := by
  have key : ∀ l : GVector,
      ((l.take d).drop s).take (e - s) = (l.drop s).take (e - s) := by
    intro l
    rw [List.drop_take, List.take_take,
      Nat.min_eq_left (Nat.sub_le_sub_right he s)]
  rw [← key l₁, ← key l₂, h]

theorem sum_take_le (l : List Nat) (k : Nat) : (l.take k).sum ≤ l.sum := by
  conv_rhs => rw [← List.take_append_drop k l]
  rw [List.sum_append]
  exact Nat.le_add_right _ _

theorem sum_take_succ_nat (l : List Nat) (i : Nat) (h : i < l.length) :
    (l.take (i + 1)).sum = (l.take i).sum + l[i] := by
  rw [List.take_succ, List.sum_append, List.getElem?_eq_getElem h]
  rfl

theorem varStarts_ne_nil (v : VectorValues) (hv : v.goodBounds) :
    v.varStarts_ ≠ [] := by
  intro h
  rcases hv with ⟨h0, -, -⟩
  rw [h] at h0
  simp at h0

theorem push_getD_last (v : VectorValues) (x : Nat) (hne : v.varStarts_ ≠ []) :
    (v.varStarts_ ++ [x]).getD (v.varStarts_.length - 1) 0 = v.dim := by
  rw [List.getD_append _ _ _ _
    (by have := List.length_pos.mpr hne; omega)]
  exact getD_length_sub_one v.varStarts_ hne

theorem push_getD_new (v : VectorValues) (x : Nat) :
    (v.varStarts_ ++ [x]).getD v.varStarts_.length 0 = x := by
  rw [List.getD_append_right _ _ _ _ (le_refl _), Nat.sub_self]
  rfl

/-- Success characterization of `push_back_preallocated`: with enough
capacity, the append succeeds, pushing the new boundary and writing `vec`
into the next free region of storage. -/
theorem push_back_ok_spec (v : VectorValues) (vec : GVector)
    (hg : v.goodBounds) (hcap : v.dim + vec.length ≤ v.dimCapacity) :
    v.push_back_preallocated vec
      = .ok (⟨v.values_.take v.dim ++ vec ++
            v.values_.drop (v.dim + vec.length),
          v.varStarts_ ++ [v.dim + vec.length]⟩, v.size) := by
  have hne := varStarts_ne_nil v hg
  have hpos : 0 < v.varStarts_.length := List.length_pos.mpr hne
  have hx : v.varStarts_.getLastD 0 = v.dim := rfl
  have hsucc : v.varStarts_.length - 1 + 1 = v.varStarts_.length := by omega
  have h1 : v.varStarts_.length - 1 <
      (v.varStarts_ ++ [v.dim + vec.length]).length - 1 := by
    simp only [List.length_append, List.length_cons, List.length_nil]
    omega
  have hs := push_getD_last v (v.dim + vec.length) hne
  have he : (v.varStarts_ ++ [v.dim + vec.length]).getD
      (v.varStarts_.length - 1 + 1) 0 = v.dim + vec.length := by
    rw [hsucc]
    exact push_getD_new v _
  have h2 : (v.varStarts_ ++ [v.dim + vec.length]).getD
      (v.varStarts_.length - 1 + 1) 0 ≤ v.values_.length := by
    rw [he]
    exact hcap
  have h3 : (v.varStarts_ ++ [v.dim + vec.length]).getD
        (v.varStarts_.length - 1 + 1) 0
      - (v.varStarts_ ++ [v.dim + vec.length]).getD
        (v.varStarts_.length - 1) 0 = vec.length := by
    rw [he, hs]
    omega
  simp only [VectorValues.push_back_preallocated, VectorValues.setBlock, hx]
  rw [if_pos h1, if_pos h2, if_pos h3, hs]
  rfl

/-- Failure characterization of `push_back_preallocated`: when the write
would exceed the allocated capacity, the ublas range check fails — but the
state at the failure point already carries the extended boundary list. -/
theorem push_back_error_spec (v : VectorValues) (vec : GVector)
    (hg : v.goodBounds) (hcap : v.dimCapacity < v.dim + vec.length) :
    v.push_back_preallocated vec
      = .error ("ublas: bad_index",
          ⟨v.values_, v.varStarts_ ++ [v.dim + vec.length]⟩) := by
  have hne := varStarts_ne_nil v hg
  have hpos : 0 < v.varStarts_.length := List.length_pos.mpr hne
  have hx : v.varStarts_.getLastD 0 = v.dim := rfl
  have hsucc : v.varStarts_.length - 1 + 1 = v.varStarts_.length := by omega
  have h1 : v.varStarts_.length - 1 <
      (v.varStarts_ ++ [v.dim + vec.length]).length - 1 := by
    simp only [List.length_append, List.length_cons, List.length_nil]
    omega
  have he : (v.varStarts_ ++ [v.dim + vec.length]).getD
      (v.varStarts_.length - 1 + 1) 0 = v.dim + vec.length := by
    rw [hsucc]
    exact push_getD_new v _
  have h2 : ¬ ((v.varStarts_ ++ [v.dim + vec.length]).getD
      (v.varStarts_.length - 1 + 1) 0 ≤ v.values_.length) := by
    rw [he]
    exact not_le.mpr hcap
  simp only [VectorValues.push_back_preallocated, VectorValues.setBlock, hx]
  rw [if_pos h1, if_neg h2]

/-! ## The claims -/

/-- C1: constructing a `VectorValues` from a dimension list `D` yields
`size() = |D|`, `dim() = sum(D)`, a boundary list equal to the running sum of
`D` prefixed with 0, and for each `i < |D|` the block returned by
`operator[]` has length `D[i]` — for any (unspecified) storage contents. -/
theorem c1_construct_from_dims (dims : List Nat) (junk : Nat → Rat) :
    (VectorValues.ofDims dims junk).size = dims.length
    ∧ (VectorValues.ofDims dims junk).dim = dims.sum
    ∧ (VectorValues.ofDims dims junk).varStarts_
        = (List.range (dims.length + 1)).map (fun i => (dims.take i).sum)
    ∧ ∀ i (h : i < dims.length),
        ((VectorValues.ofDims dims junk).getBlock i).length = dims[i] := by
  refine ⟨?_, ?_, ?_, ?_⟩
  · show (buildStarts 0 dims).length - 1 = dims.length
    rw [length_buildStarts]
    omega
  · show (buildStarts 0 dims).getLastD 0 = dims.sum
    rw [getLastD_buildStarts]
    omega
  · show buildStarts 0 dims = _
    refine List.ext_getElem (by simp [length_buildStarts]) ?_
    intro i h1 h2
    have hi : i ≤ dims.length := by
      have := length_buildStarts 0 dims; omega
    rw [← List.getD_eq_getElem _ 0 h1, getD_buildStarts dims 0 i hi]
    simp
  · intro i h
    simp only [VectorValues.ofDims, VectorValues.getBlock]
    have hlen : ((List.range ((buildStarts 0 dims).getLastD 0)).map junk).length
        = dims.sum := by
      rw [List.length_map, List.length_range, getLastD_buildStarts]
      omega
    have hs : (buildStarts 0 dims).getD i 0 = (dims.take i).sum := by
      rw [getD_buildStarts dims 0 i (le_of_lt h)]
      omega
    have he : (buildStarts 0 dims).getD (i + 1) 0 = (dims.take (i + 1)).sum := by
      rw [getD_buildStarts dims 0 (i + 1) h]
      omega
    rw [List.length_take, List.length_drop, hlen, hs, he,
      sum_take_succ_nat dims i h]
    have hle : (dims.take i).sum + dims[i] ≤ dims.sum := by
      rw [← sum_take_succ_nat dims i h]
      exact sum_take_le dims (i + 1)
    omega

/-- C1 witness at `D = [2, 3]`. -/
theorem c1_witness :
    (VectorValues.ofDims [2, 3] fun _ => 7).size = 2
    ∧ (VectorValues.ofDims [2, 3] fun _ => 7).dim = [2, 3].sum
    ∧ (VectorValues.ofDims [2, 3] fun _ => 7).varStarts_
        = (List.range 3).map (fun i => ([2, 3].take i).sum)
    ∧ ∀ i (h : i < 2),
        ((VectorValues.ofDims [2, 3] fun _ => 7).getBlock i).length = [2, 3][i] :=
  c1_construct_from_dims [2, 3] (fun _ => 7)

/-- C7: `reserve` grows the capacity to the maximum of the old capacity and
the hint, and changes no logical content: `size()`, `dim()`, the boundary
list, and every storage entry in the used range are unchanged. -/
theorem c7_reserve_frame (v : VectorValues) (nVars totalDims : Nat)
    (h : v.dim ≤ v.dimCapacity) :
    (v.reserve nVars totalDims).dimCapacity = max v.dimCapacity totalDims
    ∧ (v.reserve nVars totalDims).size = v.size
    ∧ (v.reserve nVars totalDims).dim = v.dim
    ∧ (v.reserve nVars totalDims).varStarts_ = v.varStarts_
    ∧ (v.reserve nVars totalDims).values_.take v.dim = v.values_.take v.dim := by
  refine ⟨?_, rfl, rfl, rfl, ?_⟩
  · show (v.values_ ++ List.replicate _ 0).length = _
    simp only [List.length_append, List.length_replicate, VectorValues.dimCapacity]
    omega
  · show (v.values_ ++ List.replicate _ 0).take v.dim = _
    rw [List.take_append_eq_append_take,
      show v.dim - v.values_.length = 0 by
        have : v.dimCapacity = v.values_.length := rfl
        omega]
    simp

/-- C7 witness: `reserve(3, 10)` on a 1-variable container of dimension 2. -/
theorem c7_witness :
    ((VectorValues.ofDims [2] fun _ => 0).reserve 3 10).dimCapacity
        = max (VectorValues.ofDims [2] fun _ => 0).dimCapacity 10
    ∧ ((VectorValues.ofDims [2] fun _ => 0).reserve 3 10).size
        = (VectorValues.ofDims [2] fun _ => 0).size
    ∧ ((VectorValues.ofDims [2] fun _ => 0).reserve 3 10).dim
        = (VectorValues.ofDims [2] fun _ => 0).dim
    ∧ ((VectorValues.ofDims [2] fun _ => 0).reserve 3 10).varStarts_
        = (VectorValues.ofDims [2] fun _ => 0).varStarts_
    ∧ ((VectorValues.ofDims [2] fun _ => 0).reserve 3 10).values_.take
          (VectorValues.ofDims [2] fun _ => 0).dim
        = (VectorValues.ofDims [2] fun _ => 0).values_.take
          (VectorValues.ofDims [2] fun _ => 0).dim :=
  c7_reserve_frame (VectorValues.ofDims [2] fun _ => 0) 3 10 (by decide)

theorem ofUniform_eq_ofDims (nVars varDim : Nat) (junk : Nat → Rat) :
    VectorValues.ofUniform nVars varDim junk
      = VectorValues.ofDims (List.replicate nVars varDim) junk := by
  unfold VectorValues.ofUniform VectorValues.ofDims
  rw [buildStarts_replicate varDim nVars 0]

/-- C9: the `(nVars, varDim)` constructor is equivalent to the
dimension-sequence constructor applied to `nVars` repetitions of `varDim`:
same `size()`, same boundary list, same allocated storage length. -/
theorem c9_uniform_equiv (nVars varDim : Nat) (junk : Nat → Rat) :
    (VectorValues.ofUniform nVars varDim junk).size
        = (VectorValues.ofDims (List.replicate nVars varDim) junk).size
    ∧ (VectorValues.ofUniform nVars varDim junk).varStarts_
        = (VectorValues.ofDims (List.replicate nVars varDim) junk).varStarts_
    ∧ (VectorValues.ofUniform nVars varDim junk).dimCapacity
        = (VectorValues.ofDims (List.replicate nVars varDim) junk).dimCapacity := by
  rw [ofUniform_eq_ofDims]
  exact ⟨rfl, rfl, rfl⟩

/-- C10: the postfix increment and decrement of the iterator unconditionally
throw a runtime error ("Use prefix ++ operator" resp. "Use prefix -- operator")
and produce no moved iterator; only the prefix forms move the position (by
one, in `size_t` arithmetic), leaving the referenced container untouched. -/
theorem c10_postfix_throws (it : VVIterator) :
    it.postInc = .error "Use prefix ++ operator"
    ∧ it.postDec = .error "Use prefix -- operator"
    ∧ it.inc.curVariable_ = VVIterator.wrap ((it.curVariable_ : Int) + 1)
    ∧ it.inc.config_ = it.config_
    ∧ it.dec.curVariable_ = VVIterator.wrap ((it.curVariable_ : Int) - 1)
    ∧ it.dec.config_ = it.config_ :=
  ⟨rfl, rfl, rfl, rfl, rfl, rfl⟩

/-- C6 (refuting the claim on the code): over the container with dimensions
`[1, 1, 1]`, starting from index 0, `(it += 1) -= 1` leaves the iterator at
index 2 — not back at index 0 — because the body of `operator-=` is
`curVariable_ += step`. -/
theorem c6_subAssign_adds :
    (((VVIterator.iterBegin (VectorValues.ofDims [1, 1, 1] fun _ => 0)).addAssign
          1).subAssign 1).curVariable_ = 2
    ∧ (((VVIterator.iterBegin (VectorValues.ofDims [1, 1, 1] fun _ => 0)).addAssign
          1).subAssign 1).curVariable_ ≠ 0 :=
  ⟨by decide, by decide⟩

/-- C2: with enough reserved capacity, `push_back_preallocated(vec)` returns
the old `size()` as the newly assigned (sequential) index; afterwards
`size()` has grown by one, `dim()` by `|vec|`, block `n` equals `vec`, and
every previously existing block is unchanged. -/
theorem c2_push_back_preallocated (v : VectorValues) (vec : GVector)
    (hg : v.goodBounds) (hcap : v.dim + vec.length ≤ v.dimCapacity) :
    ∃ r : VectorValues,
      v.push_back_preallocated vec = .ok (r, v.size)
      ∧ r.size = v.size + 1
      ∧ r.dim = v.dim + vec.length
      ∧ r.getBlock v.size = vec
      ∧ ∀ i, i < v.size → r.getBlock i = v.getBlock i := by
  rcases hg with ⟨h0, hpw, hdim⟩
  have hne : v.varStarts_ ≠ [] := by
    intro h; rw [h] at h0; simp at h0
  have hpos : 0 < v.varStarts_.length := List.length_pos.mpr hne
  have hdimcap : v.dim ≤ v.values_.length := hdim
  have htakelen : (v.values_.take v.dim).length = v.dim := by
    rw [List.length_take]
    omega
  refine ⟨_, push_back_ok_spec v vec ⟨h0, hpw, hdim⟩ hcap, ?_, ?_, ?_, ?_⟩
  · show (v.varStarts_ ++ [v.dim + vec.length]).length - 1 = v.size + 1
    simp only [List.length_append, List.length_cons, List.length_nil,
      VectorValues.size]
    omega
  · show (v.varStarts_ ++ [v.dim + vec.length]).getLastD 0 = v.dim + vec.length
    exact List.getLastD_concat _ _ _
  · show (_ : GVector).take _ = vec
    have hsz : v.size = v.varStarts_.length - 1 := rfl
    rw [hsz, push_getD_last v _ hne,
      show v.varStarts_.length - 1 + 1 = v.varStarts_.length by omega,
      push_getD_new v _,
      show v.dim + vec.length - v.dim = vec.length by omega]
    dsimp only
    rw [List.append_assoc, List.drop_left' htakelen, List.take_left' rfl]
  · intro i hi
    have hiv : i < v.varStarts_.length - 1 := hi
    have hgi : (v.varStarts_ ++ [v.dim + vec.length]).getD i 0
        = v.varStarts_.getD i 0 :=
      List.getD_append _ _ _ _ (by omega)
    have hgi1 : (v.varStarts_ ++ [v.dim + vec.length]).getD (i + 1) 0
        = v.varStarts_.getD (i + 1) 0 :=
      List.getD_append _ _ _ _ (by omega)
    have hei : v.varStarts_.getD (i + 1) 0 ≤ v.dim :=
      getD_le_getLastD v.varStarts_ hpw (i + 1) (by omega)
    show (_ : GVector).take _ = _
    rw [hgi, hgi1]
    exact slice_congr_of_take_eq _ v.values_ _ _ v.dim hei
      (by dsimp only; rw [List.append_assoc, List.take_left' htakelen])

/-- C2 witness: `reserve(2, 3)` on a 1-variable container, then push a
2-dimensional block. -/
theorem c2_witness :
    ∃ r : VectorValues,
      ((VectorValues.ofDims [1] fun _ => 0).reserve 2 3).push_back_preallocated
          [5, 6]
        = .ok (r, ((VectorValues.ofDims [1] fun _ => 0).reserve 2 3).size)
      ∧ r.size = ((VectorValues.ofDims [1] fun _ => 0).reserve 2 3).size + 1
      ∧ r.dim = ((VectorValues.ofDims [1] fun _ => 0).reserve 2 3).dim + 2
      ∧ r.getBlock ((VectorValues.ofDims [1] fun _ => 0).reserve 2 3).size
          = [5, 6]
      ∧ ∀ i, i < ((VectorValues.ofDims [1] fun _ => 0).reserve 2 3).size →
          r.getBlock i
            = ((VectorValues.ofDims [1] fun _ => 0).reserve 2 3).getBlock i :=
  c2_push_back_preallocated ((VectorValues.ofDims [1] fun _ => 0).reserve 2 3)
    [5, 6] (by decide) (by decide)

/-- C5 (refuting the claim on the code): pushing a 1-dimensional block onto a
full container (capacity 1, dim 1) fails, but the error state's boundary list
is `[0, 1, 2]` — it HAS grown relative to the original `[0, 1]`. -/
theorem c5_counterexample :
    (VectorValues.ofDims [1] fun _ => 0).push_back_preallocated [5]
      = .error ("ublas: bad_index",
          ⟨[0], [0, 1, 2]⟩)
    ∧ ([0, 1, 2] : List Nat) ≠ (VectorValues.ofDims [1] fun _ => 0).varStarts_ :=
  ⟨by decide, by decide⟩

/-- C5 (amended): when appending would exceed the allocated capacity,
`push_back_preallocated` fails with an assertion error and writes no values,
but at the point of failure the boundary list has already been extended by
the new boundary `dim() + |vec|` (so the attempted append is visible in the
failure state); storage itself is unchanged. -/
theorem c5_push_back_overflow (v : VectorValues) (vec : GVector)
    (hg : v.goodBounds) (hcap : v.dimCapacity < v.dim + vec.length) :
    v.push_back_preallocated vec
      = .error ("ublas: bad_index",
          ⟨v.values_, v.varStarts_ ++ [v.dim + vec.length]⟩) :=
  push_back_error_spec v vec hg hcap

/-- C5 witness at the same concrete input as the counterexample. -/
theorem c5_witness :
    (VectorValues.ofDims [1] fun _ => 0).push_back_preallocated [5]
      = .error ("ublas: bad_index",
          ⟨(VectorValues.ofDims [1] fun _ => 0).values_,
            (VectorValues.ofDims [1] fun _ => 0).varStarts_
              ++ [(VectorValues.ofDims [1] fun _ => 0).dim + 1]⟩) :=
  c5_push_back_overflow (VectorValues.ofDims [1] fun _ => 0) [5]
    (by decide) (by decide)

theorem fst_eq_snd_of_mem_zip_same (l : GVector) (p : Rat × Rat)
    (h : p ∈ l.zip l) : p.1 = p.2 := by
  induction l with
  | nil => simp at h
  | cons a t ih =>
    rw [List.zip_cons_cons] at h
    rcases List.mem_cons.mp h with rfl | h2
    · rfl
    · exact ih h2

theorem equal_with_abs_tol_refl (b : GVector) (tol : Rat) (h : 0 ≤ tol) :
    VectorValues.equal_with_abs_tol b b tol = true := by
  unfold VectorValues.equal_with_abs_tol
  rw [Bool.and_eq_true]
  refine ⟨by simp, ?_⟩
  rw [List.all_eq_true]
  intro p hp
  rw [decide_eq_true_eq, fst_eq_snd_of_mem_zip_same b p hp, sub_self, abs_zero]
  exact h

/-- C8: `equals(X, X, tol)` is true for every tolerance `tol ≥ 0`
(reflexivity), and `equals(X, Y, tol)` is false for EVERY tolerance whenever
the two containers have different variable counts (the size check
short-circuits before any tolerance comparison). -/
theorem c8_equals_reflexive (X Y : VectorValues) (tol : Rat) :
    (0 ≤ tol → X.equals X tol = true)
    ∧ (X.size ≠ Y.size → X.equals Y tol = false) := by
  constructor
  · intro htol
    unfold VectorValues.equals
    rw [if_neg (by simp), List.all_eq_true]
    intro var hvar
    exact equal_with_abs_tol_refl _ tol htol
  · intro h
    unfold VectorValues.equals
    rw [if_pos h]

/-- C8 witness: reflexivity on a 2-variable container at tolerance 1, and
inequality of a 2-variable and a 1-variable container even at the negative
tolerance -1. -/
theorem c8_witness :
    (VectorValues.ofDims [2, 3] fun _ => 7).equals
        (VectorValues.ofDims [2, 3] fun _ => 7) 1 = true
    ∧ (VectorValues.ofDims [2, 3] fun _ => 7).equals
        (VectorValues.ofDims [2] fun _ => 7) (-1) = false :=
  ⟨(c8_equals_reflexive (VectorValues.ofDims [2, 3] fun _ => 7)
      (VectorValues.ofDims [2] fun _ => 7) 1).1 (by decide),
   (c8_equals_reflexive (VectorValues.ofDims [2, 3] fun _ => 7)
      (VectorValues.ofDims [2] fun _ => 7) (-1)).2 (by decide)⟩

theorem innerProd_split (a b : GVector) (d : Nat) (hlen : a.length = b.length)
    (hd : d ≤ a.length) :
    VectorValues.innerProd a b
      = VectorValues.innerProd (a.take d) (b.take d)
        + VectorValues.innerProd (a.drop d) (b.drop d) := by
  unfold VectorValues.innerProd
  conv_lhs => rw [← List.take_append_drop d a, ← List.take_append_drop d b]
  rw [List.zipWith_append _ _ _ _ _
      (by rw [List.length_take, List.length_take, hlen]),
    List.sum_append]

/-- C3 (refuting the claim on the code): two containers with the same
`dim()` = 1, one with capacity 1 and one with capacity 2 (after
`reserve(1, 2)`) — `dot` fails on them, because it compares the full buffer
lengths, although the claim says differing capacities must not matter. -/
theorem c3_counterexample :
    (VectorValues.ofDims [1] fun _ => 1).dim
        = ((VectorValues.ofDims [1] fun _ => 1).reserve 1 2).dim
    ∧ (VectorValues.dotVV (VectorValues.ofDims [1] fun _ => 1)
        ((VectorValues.ofDims [1] fun _ => 1).reserve 1 2)).isOk = false :=
  ⟨by decide, by decide⟩

/-- C3 (amended): `dot(A, B)` operates on the full allocated buffers, not on
the used ranges: the call succeeds exactly when the two capacities
(`dimCapacity()`) are equal — equal `dim()` alone does not suffice — and its
value then is the inner product of the used ranges PLUS the inner product of
the slack regions beyond `dim()` (so slack entries do take part); no operand
is mutated (`dotVV` is a pure function of its arguments). -/
theorem c3_dot_full_range (A B : VectorValues)
    (hA : A.dim ≤ A.dimCapacity) (hB : B.dim ≤ B.dimCapacity)
    (hd : A.dim = B.dim) :
    ((VectorValues.dotVV A B).isOk = true ↔ A.dimCapacity = B.dimCapacity)
    ∧ (A.dimCapacity = B.dimCapacity →
        VectorValues.dotVV A B
          = .ok (VectorValues.innerProd (A.values_.take A.dim)
                (B.values_.take B.dim)
              + VectorValues.innerProd (A.values_.drop A.dim)
                (B.values_.drop B.dim))) := by
  constructor
  · unfold VectorValues.dotVV VectorValues.vecDot
    constructor
    · intro h
      by_contra hne
      have hne' : ¬(List.length A.values_ = List.length B.values_) := hne
      rw [if_neg hne'] at h
      simp [Except.isOk, Except.toBool] at h
    · intro h
      have h' : List.length A.values_ = List.length B.values_ := h
      rw [if_pos h']
      rfl
  · intro h
    have h' : List.length A.values_ = List.length B.values_ := h
    unfold VectorValues.dotVV VectorValues.vecDot
    rw [if_pos h', ← hd, innerProd_split A.values_ B.values_ A.dim h' hA]

/-- C3 witness: on a container with `dim() = 1` and capacity 2 (slack entry
present), `dot` succeeds against itself and splits into used-range and slack
contributions. -/
theorem c3_witness :
    (VectorValues.dotVV ((VectorValues.ofDims [1] fun _ => 1).reserve 1 2)
        ((VectorValues.ofDims [1] fun _ => 1).reserve 1 2)).isOk = true
    ∧ VectorValues.dotVV ((VectorValues.ofDims [1] fun _ => 1).reserve 1 2)
        ((VectorValues.ofDims [1] fun _ => 1).reserve 1 2)
      = .ok (VectorValues.innerProd
            (((VectorValues.ofDims [1] fun _ => 1).reserve 1 2).values_.take
              ((VectorValues.ofDims [1] fun _ => 1).reserve 1 2).dim)
            (((VectorValues.ofDims [1] fun _ => 1).reserve 1 2).values_.take
              ((VectorValues.ofDims [1] fun _ => 1).reserve 1 2).dim)
          + VectorValues.innerProd
            (((VectorValues.ofDims [1] fun _ => 1).reserve 1 2).values_.drop
              ((VectorValues.ofDims [1] fun _ => 1).reserve 1 2).dim)
            (((VectorValues.ofDims [1] fun _ => 1).reserve 1 2).values_.drop
              ((VectorValues.ofDims [1] fun _ => 1).reserve 1 2).dim)) :=
  have h := c3_dot_full_range ((VectorValues.ofDims [1] fun _ => 1).reserve 1 2)
    ((VectorValues.ofDims [1] fun _ => 1).reserve 1 2)
    (by decide) (by decide) rfl
  ⟨h.1.mpr rfl, h.2 rfl⟩

theorem goodBounds_ofDims (dims : List Nat) (junk : Nat → Rat) :
    (VectorValues.ofDims dims junk).goodBounds := by
  refine ⟨head?_buildStarts 0 dims, pairwise_buildStarts 0 dims, ?_⟩
  show (buildStarts 0 dims).getLastD 0
      ≤ ((List.range ((buildStarts 0 dims).getLastD 0)).map junk).length
  rw [List.length_map, List.length_range]

theorem goodBounds_ofDimsValues (dims : List Nat) (vals : GVector)
    (r : VectorValues) (h : VectorValues.ofDimsValues dims vals = .ok r) :
    r.goodBounds := by
  unfold VectorValues.ofDimsValues at h
  split at h
  case isTrue heq =>
    injection h with h
    subst h
    exact ⟨head?_buildStarts 0 dims, pairwise_buildStarts 0 dims, le_of_eq heq⟩
  case isFalse => cases h

theorem goodBounds_SameStructure (v : VectorValues) (junk : Nat → Rat)
    (hv : v.goodBounds) : (v.SameStructure junk).goodBounds := by
  rcases hv with ⟨h0, hpw, -⟩
  refine ⟨h0, hpw, ?_⟩
  show v.varStarts_.getLastD 0
      ≤ ((List.range (v.varStarts_.getLastD 0)).map junk).length
  rw [List.length_map, List.length_range]

theorem goodBounds_reserve (v : VectorValues) (nVars totalDims : Nat)
    (hv : v.goodBounds) : (v.reserve nVars totalDims).goodBounds := by
  rcases hv with ⟨h0, hpw, hdim⟩
  refine ⟨h0, hpw, ?_⟩
  show v.dim ≤ (v.values_ ++ List.replicate _ 0).length
  rw [List.length_append, List.length_replicate]
  have : v.dim ≤ v.values_.length := hdim
  omega

theorem goodBounds_makeZero (v : VectorValues) (hv : v.goodBounds) :
    v.makeZero.goodBounds := by
  rcases hv with ⟨h0, hpw, hdim⟩
  refine ⟨h0, hpw, ?_⟩
  show v.dim ≤ (List.replicate v.values_.length (0 : Rat)).length
  rw [List.length_replicate]
  exact hdim

theorem goodBounds_scal (alpha : Rat) (v : VectorValues) (hv : v.goodBounds) :
    (VectorValues.scalVV alpha v).goodBounds := by
  rcases hv with ⟨h0, hpw, hdim⟩
  refine ⟨h0, hpw, ?_⟩
  show v.dim ≤ (VectorValues.vecScal alpha v.values_).length
  unfold VectorValues.vecScal
  rw [List.length_map]
  exact hdim

theorem goodBounds_axpy (alpha : Rat) (x y : VectorValues) (hy : y.goodBounds)
    (r : VectorValues) (h : VectorValues.axpyVV alpha x y = .ok r) :
    r.goodBounds := by
  rcases hy with ⟨h0, hpw, hdim⟩
  unfold VectorValues.axpyVV VectorValues.vecAxpy at h
  split at h
  case isTrue hlen =>
    simp only [Except.map] at h
    injection h with h
    subst h
    refine ⟨h0, hpw, ?_⟩
    show y.dim ≤ (List.zipWith _ x.values_ y.values_).length
    rw [List.length_zipWith, hlen, Nat.min_self]
    exact hdim
  case isFalse => simp only [Except.map] at h; cases h

theorem goodBounds_add (v c : VectorValues) (hv : v.goodBounds)
    (r : VectorValues) (h : VectorValues.addVV v c = .ok r) : r.goodBounds := by
  rcases hv with ⟨h0, hpw, hdim⟩
  unfold VectorValues.addVV at h
  split at h
  case isTrue hvs =>
    split at h
    case isTrue hcaps =>
      injection h with h
      subst h
      refine ⟨h0, hpw, ?_⟩
      show v.dim ≤ (List.zipWith _ (v.values_.take v.dim)
        (c.values_.take c.dim)).length
      have hcd : c.dim = v.dim := by
        unfold VectorValues.dim
        rw [hvs]
      rw [List.length_zipWith, List.length_take, List.length_take, hcd]
      have h1 : v.dim ≤ v.values_.length := hcaps.1
      have h2 : c.dim ≤ c.values_.length := hcaps.2
      omega
    case isFalse => cases h
  case isFalse => cases h

theorem goodBounds_setBlock (v : VectorValues) (var : Nat) (vec : GVector)
    (hv : v.goodBounds) (r : VectorValues) (h : v.setBlock var vec = .ok r) :
    r.goodBounds := by
  rcases hv with ⟨h0, hpw, hdim⟩
  unfold VectorValues.setBlock at h
  split at h
  case isTrue h1 =>
    split at h
    case isTrue h2 =>
      split at h
      case isTrue h3 =>
        injection h with h
        subst h
        refine ⟨h0, hpw, ?_⟩
        have hse : v.varStarts_.getD var 0 ≤ v.varStarts_.getD (var + 1) 0 :=
          pairwise_getD_mono v.varStarts_ hpw (by omega) (by omega)
        show v.dim ≤ (v.values_.take (v.varStarts_.getD var 0) ++ vec ++
          v.values_.drop (v.varStarts_.getD var 0 + vec.length)).length
        rw [List.length_append, List.length_append, List.length_take,
          List.length_drop]
        have hd : v.dim ≤ v.values_.length := hdim
        omega
      case isFalse => cases h
    case isFalse => cases h
  case isFalse => cases h

theorem goodBounds_push (v : VectorValues) (vec : GVector) (hv : v.goodBounds)
    (r : VectorValues) (i : Nat)
    (h : v.push_back_preallocated vec = .ok (r, i)) : r.goodBounds := by
  by_cases hcap : v.dim + vec.length ≤ v.dimCapacity
  · rw [push_back_ok_spec v vec hv hcap] at h
    injection h with h
    injection h with h hi
    subst h
    rcases hv with ⟨h0, hpw, hdim⟩
    have hne : v.varStarts_ ≠ [] := by
      intro hn; rw [hn] at h0; simp at h0
    refine ⟨?_, ?_, ?_⟩
    · show (v.varStarts_ ++ [v.dim + vec.length]).head? = some 0
      rw [List.head?_append, h0]
      rfl
    · show List.Pairwise (· ≤ ·) (v.varStarts_ ++ [v.dim + vec.length])
      rw [List.pairwise_append]
      refine ⟨hpw, List.pairwise_singleton _ _, ?_⟩
      intro a ha b hb
      rw [List.mem_singleton] at hb
      subst hb
      exact le_trans (le_getLastD_of_mem v.varStarts_ hpw a ha)
        (Nat.le_add_right _ _)
    · show (v.varStarts_ ++ [v.dim + vec.length]).getLastD 0
        ≤ (v.values_.take v.dim ++ vec ++
            v.values_.drop (v.dim + vec.length)).length
      rw [List.getLastD_concat, List.length_append, List.length_append,
        List.length_take, List.length_drop]
      have hd : v.dim + vec.length ≤ v.values_.length := hcap
      omega
  · rw [push_back_error_spec v vec hv (by omega)] at h
    cases h

/-- C4: after every operation of the public interface (each constructor,
`SameStructure`, `reserve`, `push_back_preallocated`, writes through
`operator[]`, `makeZero`, `scal`, `axpy`, `operator+`) the data-model
invariant holds: the boundary list starts with 0, is non-decreasing, and
`dim() ≤ dimCapacity()` (for the fallible operations: whenever they return a
result rather than failing their assertions). -/
theorem c4_invariants (dims : List Nat) (junk : Nat → Rat)
    (nVars varDim totalDims var : Nat) (vals vec : GVector) (alpha : Rat)
    (v w : VectorValues) (hv : v.goodBounds) (hw : w.goodBounds) :
    VectorValues.empty.goodBounds
    ∧ v.copy.goodBounds
    ∧ (VectorValues.ofDims dims junk).goodBounds
    ∧ (VectorValues.ofUniform nVars varDim junk).goodBounds
    ∧ (∀ r, VectorValues.ofDimsValues dims vals = .ok r → r.goodBounds)
    ∧ (v.SameStructure junk).goodBounds
    ∧ (v.reserve nVars totalDims).goodBounds
    ∧ (∀ r i, v.push_back_preallocated vec = .ok (r, i) → r.goodBounds)
    ∧ (∀ r, v.setBlock var vec = .ok r → r.goodBounds)
    ∧ v.makeZero.goodBounds
    ∧ (VectorValues.scalVV alpha v).goodBounds
    ∧ (∀ r, VectorValues.axpyVV alpha w v = .ok r → r.goodBounds)
    ∧ (∀ r, VectorValues.addVV v w = .ok r → r.goodBounds) := by
  refine ⟨by decide, hv, goodBounds_ofDims dims junk, ?_,
    fun r h => goodBounds_ofDimsValues dims vals r h,
    goodBounds_SameStructure v junk hv,
    goodBounds_reserve v nVars totalDims hv,
    fun r i h => goodBounds_push v vec hv r i h,
    fun r h => goodBounds_setBlock v var vec hv r h,
    goodBounds_makeZero v hv,
    goodBounds_scal alpha v hv,
    fun r h => goodBounds_axpy alpha w v hv r h,
    fun r h => goodBounds_add v w hv r h⟩
  rw [ofUniform_eq_ofDims]
  exact goodBounds_ofDims _ junk

/-- C4 witness at concrete inputs (two structurally equal 2-variable
containers; the fallible operations' premises stay as implications). -/
theorem c4_witness :
    VectorValues.empty.goodBounds
    ∧ (VectorValues.ofDims [1, 2] fun _ => 3).copy.goodBounds
    ∧ (VectorValues.ofDims [1, 2] fun _ => 5).goodBounds
    ∧ (VectorValues.ofUniform 2 3 fun _ => 5).goodBounds
    ∧ (∀ r, VectorValues.ofDimsValues [1, 2] [1, 2, 3] = .ok r → r.goodBounds)
    ∧ ((VectorValues.ofDims [1, 2] fun _ => 3).SameStructure
        (fun _ => 5)).goodBounds
    ∧ ((VectorValues.ofDims [1, 2] fun _ => 3).reserve 2 10).goodBounds
    ∧ (∀ r i, (VectorValues.ofDims [1, 2] fun _ => 3).push_back_preallocated [9]
        = .ok (r, i) → r.goodBounds)
    ∧ (∀ r, (VectorValues.ofDims [1, 2] fun _ => 3).setBlock 0 [9]
        = .ok r → r.goodBounds)
    ∧ (VectorValues.ofDims [1, 2] fun _ => 3).makeZero.goodBounds
    ∧ (VectorValues.scalVV 2 (VectorValues.ofDims [1, 2] fun _ => 3)).goodBounds
    ∧ (∀ r, VectorValues.axpyVV 2 (VectorValues.ofDims [1, 2] fun _ => 4)
        (VectorValues.ofDims [1, 2] fun _ => 3) = .ok r → r.goodBounds)
    ∧ (∀ r, VectorValues.addVV (VectorValues.ofDims [1, 2] fun _ => 3)
        (VectorValues.ofDims [1, 2] fun _ => 4) = .ok r → r.goodBounds) :=
  c4_invariants [1, 2] (fun _ => 5) 2 3 10 0 [1, 2, 3] [9] 2
    (VectorValues.ofDims [1, 2] fun _ => 3)
    (VectorValues.ofDims [1, 2] fun _ => 4) (by decide) (by decide)

